import Mathlib

/-!
Verification of the asynchronous ingestion pipeline of the schedule backend.

Shallow embedding of:
- `FileProcessor.cleanText` (TextNormalizer), `FileProcessor.processFile`
  (FormatRouter), `FileProcessor.processExcel` (Spreadsheet strategy),
  `FileProcessor.isSupported` - src/services/fileProcessor.js;
- `OpenAIService.makeRequestWithRetry`, `parseAndValidateResponse`,
  `validateString`, `validateOptionalString`, `validateDate`
  (ScheduleExtractor) - src/services/openaiService.js;
- `processFileAsync` (IngestionPipeline) - the upload route module.

Strings are modelled as Lean `String` (lists of characters); JavaScript
regular-expression replacements are modelled by recursive functions with the
same observable effect on the scanned text; JSON values are modelled by the
inductive `JValue` (with an `undef` constructor for JavaScript's `undefined`,
as produced by a missing property lookup); thrown JavaScript errors are
modelled with `Except String`.
-/

/-! ## Data model: statuses, strategy families, schedule items, JSON values -/

/-- Processing status of an uploaded file (the `processing_status` column). -/
inductive Status where
  | pending
  | processing
  | text_extracted
  | completed
  | failed
deriving DecidableEq, Repr

/-- The five extraction strategy families of `FileProcessor.supportedTypes`. -/
inductive Family where
  | excel
  | word
  | pdf
  | text
  | image
deriving DecidableEq, Repr

/-- A validated schedule item as built by `parseAndValidateResponse`. -/
structure ScheduleItem where
  assignment : String
  due_date : Option String
  location : Option String
  source : String
deriving DecidableEq, Repr

/-- JSON-like values handed to the response validator.  `undef` models the
JavaScript `undefined` produced by looking up a missing object property. -/
inductive JValue where
  | null
  | undef
  | bool (b : Bool)
  | num (n : Int)
  | str (s : String)
  | arr (elems : List JValue)
  | obj (fields : List (String × JValue))

/-! ## TextNormalizer: `FileProcessor.cleanText`

The JavaScript chain
`text.replace(/\r\n/g,'\n').replace(/\r/g,'\n').replace(/\n{3,}/g,'\n\n')
     .replace(/\t+/g,' ').replace(/ {2,}/g,' ').trim()`
is modelled stage by stage on `List Char`. -/

/-- `replace(/\r\n/g, '\n')`: each CRLF pair becomes a single LF,
scanning left to right. -/
def crlfToLf : List Char → List Char
  | [] => []
  | [a] => [a]
  | a :: b :: rest =>
      if a = '\r' ∧ b = '\n' then '\n' :: crlfToLf rest
      else a :: crlfToLf (b :: rest)

/-- `replace(/\r/g, '\n')`: every remaining CR becomes LF. -/
def crToNl (l : List Char) : List Char :=
  l.map (fun a => if a = '\r' then '\n' else a)

/-- `replace(/\n{3,}/g, '\n\n')` for `c = '\n'`: every maximal run of three
or more copies of `c` is cut down to exactly two (the leading extras of the
run are dropped, which yields the same text as the regex replacement). -/
def squeeze3 (c : Char) : List Char → List Char
  | a :: b :: d :: rest =>
      if a = c ∧ b = c ∧ d = c then squeeze3 c (b :: d :: rest)
      else a :: squeeze3 c (b :: d :: rest)
  | l => l

/-- `replace(/\t+/g, ' ')`: every maximal run of tabs becomes one space. -/
def tabsToSpace : List Char → List Char
  | [] => []
  | [a] => [if a = '\t' then ' ' else a]
  | a :: b :: rest =>
      if a = '\t' ∧ b = '\t' then tabsToSpace (b :: rest)
      else (if a = '\t' then ' ' else a) :: tabsToSpace (b :: rest)

/-- `replace(/ {2,}/g, ' ')` for `c = ' '`: every maximal run of two or more
copies of `c` is cut down to one. -/
def squeeze (c : Char) : List Char → List Char
  | a :: b :: rest =>
      if a = c ∧ b = c then squeeze c (b :: rest)
      else a :: squeeze c (b :: rest)
  | l => l

/-- The whitespace class trimmed by JavaScript `String.prototype.trim`
(restricted to the characters that can actually occur here, plus the common
Unicode members). -/
def isJsWs (c : Char) : Bool :=
  c == ' ' || c == '\t' || c == '\n' || c == '\r' || c == '\x0b' ||
  c == '\x0c' || c == '\u00A0' || c == '\uFEFF'

/-- `trim()`: drop trailing whitespace (via the reversed list), then leading
whitespace. -/
def jsTrim (l : List Char) : List Char :=
  List.dropWhile isJsWs ((List.dropWhile isJsWs l.reverse).reverse)

/-- The whole replacement chain of `cleanText`, on character lists. -/
def normalizePipeline (l : List Char) : List Char :=
  jsTrim (squeeze ' ' (tabsToSpace (squeeze3 '\n' (crToNl (crlfToLf l)))))

/-- `FileProcessor.cleanText`: `if (!text) return '';` then the replacement
chain and `trim()`. -/
def cleanText (s : String) : String :=
  if s = "" then "" else String.mk (normalizePipeline s.data)

/-- Does the list contain two consecutive occurrences of `c`? -/
def hasPair (c : Char) : List Char → Bool
  | a :: b :: rest => (a == c && b == c) || hasPair c (b :: rest)
  | _ => false

/-- Does the list contain three consecutive occurrences of `c`? -/
def hasTriple (c : Char) : List Char → Bool
  | a :: b :: d :: rest => (a == c && b == c && d == c) || hasTriple c (b :: d :: rest)
  | _ => false

/-- The list is empty or starts with a non-whitespace character. -/
def headOkB (l : List Char) : Bool :=
  match l with
  | [] => true
  | a :: _ => !isJsWs a

/-- The list has no leading and no trailing whitespace. -/
def trimmedB (l : List Char) : Bool :=
  headOkB l && headOkB l.reverse

/-! ## ScheduleExtractor response validation (`openaiService.js`) -/

/-- JavaScript `value.trim()` on a modelled string. -/
def jsTrimStr (s : String) : String := String.mk (jsTrim s.data)

/-- Property lookup `fields[k]` on a parsed JSON object: the first binding
wins (as after `JSON.parse`), a missing key yields `undefined`. -/
def lookupField (fields : List (String × JValue)) (k : String) : JValue :=
  match List.lookup k fields with
  | some v => v
  | none => JValue.undef

/-- `validateString(value, fieldName)`: a non-string or a string that trims
to empty throws; otherwise the trimmed string is returned. -/
def validateString (v : JValue) (fieldName : String) : Except String String :=
  match v with
  | .str s =>
      if (jsTrimStr s).length = 0 then
        .error (fieldName ++ " must be a non-empty string")
      else .ok (jsTrimStr s)
  | _ => .error (fieldName ++ " must be a non-empty string")

/-- `validateOptionalString(value)`: null/undefined/non-string and
whitespace-only strings all become `null`; otherwise the trimmed string. -/
def validateOptionalString (v : JValue) : Option String :=
  match v with
  | .str s => if 0 < (jsTrimStr s).length then some (jsTrimStr s) else none
  | _ => none

/-- Decimal value of a digit character. -/
def digitVal (c : Char) : Nat := c.toNat - '0'.toNat

/-- The regex `^\d{4}-\d{2}-\d{2}$` together with extraction of the year,
month and day numbers.  `none` when the shape does not match. -/
def parseYMD (s : String) : Option (Nat × Nat × Nat) :=
  match s.data with
  | [y1, y2, y3, y4, h1, m1, m2, h2, d1, d2] =>
      if y1.isDigit && y2.isDigit && y3.isDigit && y4.isDigit && h1 == '-' &&
         m1.isDigit && m2.isDigit && h2 == '-' && d1.isDigit && d2.isDigit then
        some (((digitVal y1 * 10 + digitVal y2) * 10 + digitVal y3) * 10 + digitVal y4,
              digitVal m1 * 10 + digitVal m2,
              digitVal d1 * 10 + digitVal d2)
      else none
  | _ => none

/-- `dateRegex.test(value)`. -/
def isYMD (s : String) : Bool := (parseYMD s).isSome

/-- Gregorian leap-year rule. -/
def isLeap (y : Nat) : Bool := (y % 4 == 0 && y % 100 != 0) || y % 400 == 0

/-- Length of a month (1-12); 0 for anything else. -/
def daysInMonth (y m : Nat) : Nat :=
  match m with
  | 1 => 31
  | 2 => if isLeap y then 29 else 28
  | 3 => 31
  | 4 => 30
  | 5 => 31
  | 6 => 30
  | 7 => 31
  | 8 => 31
  | 9 => 30
  | 10 => 31
  | 11 => 30
  | 12 => 31
  | _ => 0

/-- Are `(y, m, d)` a calendar-valid Gregorian date? -/
def calendarValid (y m d : Nat) : Bool :=
  decide (1 ≤ m) && decide (m ≤ 12) && decide (1 ≤ d) && decide (d ≤ daysInMonth y m)

/-- `new Date(value).getTime()` for a string already matching the regex:
V8 yields an invalid date (NaN) exactly when the components are not
calendar-valid, so the parse is modelled as `none` in that case. -/
def jsDateParse (s : String) : Option (Nat × Nat × Nat) :=
  match parseYMD s with
  | some (y, m, d) => if calendarValid y m d then some (y, m, d) else none
  | none => none

/-- Zero-padded two-digit rendering. -/
def pad2 (n : Nat) : String := if n < 10 then "0" ++ toString n else toString n

/-- Zero-padded four-digit rendering. -/
def pad4 (n : Nat) : String :=
  if n < 10 then "000" ++ toString n
  else if n < 100 then "00" ++ toString n
  else if n < 1000 then "0" ++ toString n
  else toString n

/-- `date.toISOString().split('T')[0]`. -/
def toISODate (y m d : Nat) : String :=
  pad4 y ++ "-" ++ pad2 m ++ "-" ++ pad2 d

/-- `validateDate(value)`: null/undefined/non-string → null; regex failure →
null; invalid calendar date → null; round-trip mismatch → null; otherwise the
value itself. -/
def validateDate (v : JValue) : Option String :=
  match v with
  | .str value =>
      if isYMD value then
        match jsDateParse value with
        | some (y, m, d) => if toISODate y m d = value then some value else none
        | none => none
      else none
  | _ => none

/-- The four field validations of one array element, in source order
(`assignment`, then `due_date`/`location` which never throw, then
`source`).  `lk` is the element's property lookup. -/
def validateFields (lk : String → JValue) : Except String ScheduleItem :=
  match validateString (lk "assignment") "assignment" with
  | .error e => .error e
  | .ok a =>
      match validateString (lk "source") "source" with
      | .error e => .error e
      | .ok src =>
          .ok { assignment := a
              , due_date := validateDate (lk "due_date")
              , location := validateOptionalString (lk "location")
              , source := src }

/-- Validation of the array element at index `idx`.  `typeof item` is
`'object'` for objects, arrays and `null`; `null` is rejected explicitly, an
array reaches the field validations where every lookup yields `undefined`;
everything else throws `Item idx is not an object`. -/
def validateItem (idx : Nat) (v : JValue) : Except String ScheduleItem :=
  match v with
  | .obj fields => validateFields (lookupField fields)
  | .arr _ => validateFields (fun _ => JValue.undef)
  | _ => .error ("Item " ++ toString idx ++ " is not an object")

/-- `parsed.map((item, index) => ...)` with fail-fast error propagation. -/
def validateItems : Nat → List JValue → Except String (List ScheduleItem)
  | _, [] => .ok []
  | i, v :: rest =>
      match validateItem i v with
      | .error e => .error e
      | .ok item =>
          match validateItems (i + 1) rest with
          | .error e => .error e
          | .ok items => .ok (item :: items)

/-- The body of `parseAndValidateResponse` after `JSON.parse`: the parsed
value must be an array, then every element is validated. -/
def parseAndValidateInner (parsed : JValue) : Except String (List ScheduleItem) :=
  match parsed with
  | .arr items => validateItems 0 items
  | _ => .error "Response is not an array"

/-- `parseAndValidateResponse` on an already-parsed JSON value: any inner
error is re-thrown wrapped as `Invalid JSON response from OpenAI: ...`. -/
def parseAndValidateResponse (parsed : JValue) : Except String (List ScheduleItem) :=
  match parseAndValidateInner parsed with
  | .ok items => .ok items
  | .error e => .error ("Invalid JSON response from OpenAI: " ++ e)

/-- Did the validation succeed? -/
def exIsOk {α : Type} : Except String α → Bool
  | .ok _ => true
  | .error _ => false

/-- Is `v` a string that is non-empty after trimming? -/
def nonEmptyStrB (v : JValue) : Bool :=
  match v with
  | .str s => !((jsTrimStr s) == "")
  | _ => false

/-! ## ScheduleExtractor retry loop (`makeRequestWithRetry`) -/

/-- `this.maxRetries` (set in the `OpenAIService` constructor). -/
def maxRetries : Nat := 3

/-- `this.retryDelay` in milliseconds. -/
def retryDelay : Nat := 1000

/-- Observable outcome of one `makeRequestWithRetry` call tree: how many
remote attempts were made, the waits performed between attempts (in order),
and the final result. -/
structure RetryResult where
  attempts : Nat
  delays : List Nat
  result : Except String (List ScheduleItem)

/-- `makeRequestWithRetry(prompt, attempt)`.  `oracle n` is the outcome of
the n-th remote attempt (transport error, empty response or response
validation collapse into the thrown error's message, exactly as the
JavaScript `catch` sees them).  On failure with `attempt < maxRetries` the
code waits `retryDelay * attempt` and recurses with `attempt + 1`; after the
last allowed attempt it throws the aggregated error. -/
def makeRequestWithRetry (oracle : Nat → Except String (List ScheduleItem))
    (attempt : Nat) : RetryResult :=
  match oracle attempt with
  | .ok items => { attempts := 1, delays := [], result := .ok items }
  | .error msg =>
      if h : attempt < maxRetries then
        let r := makeRequestWithRetry oracle (attempt + 1)
        { attempts := r.attempts + 1
        , delays := retryDelay * attempt :: r.delays
        , result := r.result }
      else
        { attempts := 1, delays := []
        , result := .error ("OpenAI request failed after " ++ toString maxRetries ++
                            " attempts: " ++ msg) }
termination_by maxRetries - attempt
decreasing_by omega

/-! ## FormatRouter (`FileProcessor.processFile` and `supportedTypes`) -/

/-- The own keys of `this.supportedTypes` with their strategy families. -/
def supportedTypes : List (String × Family) :=
  [ ("application/vnd.openxmlformats-officedocument.spreadsheetml.sheet", .excel)
  , ("application/vnd.ms-excel", .excel)
  , ("application/vnd.openxmlformats-officedocument.wordprocessingml.document", .word)
  , ("application/msword", .word)
  , ("application/pdf", .pdf)
  , ("text/plain", .text)
  , ("text/markdown", .text)
  , ("image/jpeg", .image)
  , ("image/png", .image)
  , ("image/gif", .image) ]

/-- Property names a plain JavaScript object literal inherits from
`Object.prototype`: looking any of these up on `supportedTypes` yields a
truthy non-string value (a function, or the prototype object itself). -/
def objectProtoKeys : List String :=
  [ "constructor", "hasOwnProperty", "isPrototypeOf", "propertyIsEnumerable"
  , "toLocaleString", "toString", "valueOf", "__proto__"
  , "__defineGetter__", "__defineSetter__", "__lookupGetter__", "__lookupSetter__" ]

/-- Own-key lookup `this.supportedTypes[mimeType]` restricted to own keys. -/
def lookupSupported (mime : String) : Option Family :=
  List.lookup mime supportedTypes

/-- `FileProcessor.isSupported`: `hasOwnProperty` ignores inherited keys. -/
def isSupported (mime : String) : Bool := (lookupSupported mime).isSome

/-- Outcome of `processFile` before any strategy work: either exactly one
strategy family is run, or an error is thrown first. -/
inductive ProcessOutcome where
  | runStrategy (f : Family)
  | errUnsupported (mime : String)
  | errNoProcessor
deriving DecidableEq, Repr

/-- `FileProcessor.processFile` up to strategy dispatch.  An own key selects
its family via the `switch`; a falsy lookup (`undefined`) throws
`Unsupported file type`; an inherited `Object.prototype` member is truthy but
matches no `switch` case, so the `default` arm throws
`No processor found for type`. -/
def processFile (mime : String) : ProcessOutcome :=
  match lookupSupported mime with
  | some f => .runStrategy f
  | none =>
      if mime ∈ objectProtoKeys then .errNoProcessor
      else .errUnsupported mime

/-! ## Spreadsheet strategy (`FileProcessor.processExcel`)

The workbook contents are modelled as a list of sheets, each a name together
with its rows of string cells (the result of `sheet_to_json(..., {header:1})`
followed by the string coercion in `row.join`). -/

/-- The row loop of one sheet: rows with at least one cell are tab-joined and
newline-terminated, empty rows are skipped. -/
def excelSheetRows (rows : List (List String)) : String :=
  rows.foldl
    (fun acc row =>
      if 0 < row.length then acc ++ String.intercalate "\t" row ++ "\n" else acc)
    ""

/-- The sheet loop: each sheet contributes `Sheet: name`, its rows and a
separating blank line. -/
def excelRaw (sheets : List (String × List (List String))) : String :=
  sheets.foldl
    (fun acc p => acc ++ "Sheet: " ++ p.1 ++ "\n" ++ excelSheetRows p.2 ++ "\n")
    ""

/-- `FileProcessor.processExcel`: the accumulated text passed through
`cleanText`. -/
def processExcel (sheets : List (String × List (List String))) : String :=
  cleanText (excelRaw sheets)

/-! ## IngestionPipeline (`processFileAsync` in the upload route)

One background run for one file.  The environment fixes the declared content
type, what each strategy would produce, whether each repository write
succeeds, and the per-attempt outcomes of the remote extraction capability.
The run is recorded as a list of observable events. -/

/-- Environment of one pipeline run. -/
structure Env where
  mimeType : String
  strategyResult : Family → Option String
  writeTextOk : Bool
  aiOracle : Nat → Except String (List ScheduleItem)
  appendOk : Bool
  writeCompletedOk : Bool
  writeFailedOk : Bool

/-- Observable events of a run.  `writeText` is the single UPDATE that
persists the extracted text together with the `text_extracted` status;
`append` stands for the assignment INSERT loop; each write event carries
whether the write succeeded durably. -/
inductive Ev where
  | strategy (f : Family)
  | writeText (ok : Bool)
  | callAI
  | append (ok : Bool)
  | writeStatus (st : Status) (ok : Bool)
deriving DecidableEq, Repr

/-- The `catch` block: one attempt to mark the file `failed`. -/
def failTail (env : Env) : List Ev :=
  [.writeStatus .failed env.writeFailedOk]

/-- `processFileAsync(fileId, filePath, mimeType, originalName, userId)`:
router + strategy, persist extracted text with status `text_extracted`,
remote extraction (with its internal retry loop), append assignments, mark
`completed`; any thrown error reaches the `catch` block, which tries to mark
the file `failed`. -/
def processFileAsync (env : Env) : List Ev :=
  match processFile env.mimeType with
  | .errUnsupported _ => failTail env
  | .errNoProcessor => failTail env
  | .runStrategy f =>
      .strategy f ::
      match env.strategyResult f with
      | none => failTail env
      | some _ =>
          .writeText env.writeTextOk ::
          if env.writeTextOk then
            .callAI ::
            (match (makeRequestWithRetry env.aiOracle 1).result with
             | .error _ => failTail env
             | .ok _ =>
                 .append env.appendOk ::
                 if env.appendOk then
                   .writeStatus .completed env.writeCompletedOk ::
                   (if env.writeCompletedOk then [] else failTail env)
                 else failTail env)
          else failTail env

/-- The durable status produced by an event, if any. -/
def statusOfEv : Ev → Option Status
  | .writeText true => some .text_extracted
  | .writeStatus st true => some st
  | _ => none

/-- The sequence of durably written statuses of one run, starting from the
`processing` status written by the upload route's INSERT. -/
def durableStatuses (env : Env) : List Status :=
  .processing :: (processFileAsync env).filterMap statusOfEv

/-- Rank of a status along the defined state order
`pending < processing < text_extracted < completed`. -/
def statusRank : Status → Nat
  | .pending => 0
  | .processing => 1
  | .text_extracted => 2
  | .completed => 3
  | .failed => 4

/-- Legality of one observed durable transition `a → b`: the source is
non-terminal; a transition into `failed` comes from `processing` or
`text_extracted`; any other transition is non-decreasing in the state
order. -/
def okStepB (a b : Status) : Bool :=
  (a != .completed && a != .failed) &&
  (if b = .failed then (a == .processing || a == .text_extracted)
   else decide (statusRank a ≤ statusRank b))

/-- Is the event a repository write that failed? -/
def isFailedWrite : Ev → Bool
  | .writeText ok => !ok
  | .writeStatus _ ok => !ok
  | .append ok => !ok
  | _ => false

/-- Is the event a status write attempt (successful or not)? -/
def isWriteAttempt : Ev → Bool
  | .writeText _ => true
  | .writeStatus _ _ => true
  | _ => false

/-- Is the event the execution of a pipeline stage (strategy extraction,
remote call, assignment append)? -/
def isStage : Ev → Bool
  | .strategy _ => true
  | .callAI => true
  | .append _ => true
  | _ => false

/-- The events that happen strictly after the first failed repository
write; `[]` when no write fails. -/
def afterFirstFailedWrite : List Ev → List Ev
  | [] => []
  | e :: rest => if isFailedWrite e then rest else afterFirstFailedWrite rest

/-- A remote oracle whose every attempt fails with `boom`. -/
def oracleAllFail : Nat → Except String (List ScheduleItem) := fun _ => .error "boom"

/-- A remote oracle whose every attempt returns zero items. -/
def oracleAllOk : Nat → Except String (List ScheduleItem) := fun _ => .ok []

/-- A run environment for an upload declared as `application/zip` (an
unsupported content type) in which every later step would succeed. -/
def envZip : Env :=
  { mimeType := "application/zip", strategyResult := fun _ => some "x"
  , writeTextOk := true, aiOracle := oracleAllOk
  , appendOk := true, writeCompletedOk := true, writeFailedOk := true }

/-- A run environment for a plain-text upload in which the repository write
of the extracted text fails and everything else would succeed. -/
def envWriteTextFails : Env :=
  { mimeType := "text/plain", strategyResult := fun _ => some "x"
  , writeTextOk := false, aiOracle := oracleAllOk
  , appendOk := true, writeCompletedOk := true, writeFailedOk := true }

/-! ## Lemmas about the TextNormalizer stages -/

theorem hasTriple_cons_false {c a : Char} {l : List Char}
    (h : hasTriple c (a :: l) = false) : hasTriple c l = false := by
  cases l with
  | nil => rfl
  | cons b rest =>
    cases rest with
    | nil => rfl
    | cons d rest2 =>
      simp only [hasTriple, Bool.or_eq_false_iff] at h
      exact h.2

theorem hasPair_cons_false {c a : Char} {l : List Char}
    (h : hasPair c (a :: l) = false) : hasPair c l = false := by
  cases l with
  | nil => rfl
  | cons b rest =>
    simp only [hasPair, Bool.or_eq_false_iff] at h
    exact h.2

theorem hasTriple_cons_true {c a : Char} {l : List Char}
    (h : hasTriple c l = true) : hasTriple c (a :: l) = true := by
  cases l with
  | nil => simp [hasTriple] at h
  | cons b rest =>
    cases rest with
    | nil => simp [hasTriple] at h
    | cons d rest2 => simp [hasTriple, h]

theorem hasPair_cons_true {c a : Char} {l : List Char}
    (h : hasPair c l = true) : hasPair c (a :: l) = true := by
  cases l with
  | nil => simp [hasPair] at h
  | cons b rest => simp [hasPair, h]

theorem hasTriple_append_right {c : Char} (l t : List Char)
    (h : hasTriple c l = true) : hasTriple c (l ++ t) = true := by
  induction l with
  | nil => simp [hasTriple] at h
  | cons a rest ih =>
    cases rest with
    | nil => simp [hasTriple] at h
    | cons b rest2 =>
      cases rest2 with
      | nil => simp [hasTriple] at h
      | cons d rest3 =>
        simp only [hasTriple, Bool.or_eq_true] at h
        rcases h with h | h
        · simp [List.cons_append, hasTriple, h]
        · have := ih h
          simp only [List.cons_append] at this ⊢
          exact hasTriple_cons_true this

theorem hasTriple_append_left {c : Char} (t l : List Char)
    (h : hasTriple c l = true) : hasTriple c (t ++ l) = true := by
  induction t with
  | nil => simpa using h
  | cons x t1 ih => simpa [List.cons_append] using hasTriple_cons_true ih

theorem hasPair_append_right {c : Char} (l t : List Char)
    (h : hasPair c l = true) : hasPair c (l ++ t) = true := by
  induction l with
  | nil => simp [hasPair] at h
  | cons a rest ih =>
    cases rest with
    | nil => simp [hasPair] at h
    | cons b rest2 =>
      simp only [hasPair, Bool.or_eq_true] at h
      rcases h with h | h
      · simp [List.cons_append, hasPair, h]
      · have := ih h
        simp only [List.cons_append] at this ⊢
        exact hasPair_cons_true this

theorem hasPair_append_left {c : Char} (t l : List Char)
    (h : hasPair c l = true) : hasPair c (t ++ l) = true := by
  induction t with
  | nil => simpa using h
  | cons x t1 ih => simpa [List.cons_append] using hasPair_cons_true ih

theorem hasTriple_of_append_right {c : Char} {l t : List Char}
    (h : hasTriple c (l ++ t) = false) : hasTriple c l = false := by
  cases hl : hasTriple c l with
  | false => rfl
  | true => rw [hasTriple_append_right l t hl] at h; cases h

theorem hasTriple_of_append_left {c : Char} {t l : List Char}
    (h : hasTriple c (t ++ l) = false) : hasTriple c l = false := by
  cases hl : hasTriple c l with
  | false => rfl
  | true => rw [hasTriple_append_left t l hl] at h; cases h

theorem hasPair_of_append_right {c : Char} {l t : List Char}
    (h : hasPair c (l ++ t) = false) : hasPair c l = false := by
  cases hl : hasPair c l with
  | false => rfl
  | true => rw [hasPair_append_right l t hl] at h; cases h

theorem hasPair_of_append_left {c : Char} {t l : List Char}
    (h : hasPair c (t ++ l) = false) : hasPair c l = false := by
  cases hl : hasPair c l with
  | false => rfl
  | true => rw [hasPair_append_left t l hl] at h; cases h

theorem crlfToLf_id (l : List Char) (h : '\r' ∉ l) : crlfToLf l = l := by
  induction l with
  | nil => rfl
  | cons a rest ih =>
    have ha : a ≠ '\r' := fun e => h (by simp [e])
    have h2 : '\r' ∉ rest := fun m => h (List.mem_cons_of_mem _ m)
    cases rest with
    | nil => rfl
    | cons b rest2 =>
      simp only [crlfToLf]
      rw [if_neg (fun hc => ha hc.1), ih h2]

theorem crToNl_id (l : List Char) (h : '\r' ∉ l) : crToNl l = l := by
  unfold crToNl
  induction l with
  | nil => rfl
  | cons a rest ih =>
    have ha : a ≠ '\r' := fun e => h (by simp [e])
    have h2 : '\r' ∉ rest := fun m => h (List.mem_cons_of_mem _ m)
    simp only [List.map_cons, if_neg ha, ih h2]

theorem squeeze3_id {c : Char} (l : List Char) (h : hasTriple c l = false) :
    squeeze3 c l = l := by
  induction l with
  | nil => rfl
  | cons a rest ih =>
    cases rest with
    | nil => rfl
    | cons b rest2 =>
      cases rest2 with
      | nil => rfl
      | cons d rest3 =>
        simp only [hasTriple, Bool.or_eq_false_iff] at h
        simp only [squeeze3]
        rw [if_neg, ih h.2]
        intro hc
        rcases hc with ⟨h1, h2, h3⟩
        simp [h1, h2, h3] at h

theorem squeeze_id {c : Char} (l : List Char) (h : hasPair c l = false) :
    squeeze c l = l := by
  induction l with
  | nil => rfl
  | cons a rest ih =>
    cases rest with
    | nil => rfl
    | cons b rest2 =>
      simp only [hasPair, Bool.or_eq_false_iff] at h
      simp only [squeeze]
      rw [if_neg, ih h.2]
      intro hc
      rcases hc with ⟨h1, h2⟩
      simp [h1, h2] at h

theorem tabsToSpace_id (l : List Char) (h : '\t' ∉ l) : tabsToSpace l = l := by
  induction l with
  | nil => rfl
  | cons a rest ih =>
    have ha : a ≠ '\t' := fun e => h (by simp [e])
    have h2 : '\t' ∉ rest := fun m => h (List.mem_cons_of_mem _ m)
    cases rest with
    | nil => simp [tabsToSpace, if_neg ha]
    | cons b rest2 =>
      have hb : b ≠ '\t' := fun e => h2 (by simp [e])
      simp only [tabsToSpace]
      rw [if_neg (fun hc => ha hc.1), if_neg ha, ih h2]

theorem squeeze_cons_ex (c a : Char) (l : List Char) :
    ∃ w, squeeze c (a :: l) = a :: w := by
  induction l generalizing a with
  | nil => exact ⟨[], rfl⟩
  | cons b rest ih =>
    by_cases hab : a = c ∧ b = c
    · obtain ⟨w, hw⟩ := ih b
      refine ⟨w, ?_⟩
      have h1 : squeeze c (a :: b :: rest) = squeeze c (b :: rest) := by
        simp only [squeeze, if_pos hab]
      rw [h1, hw, hab.1, hab.2]
    · exact ⟨squeeze c (b :: rest), by simp only [squeeze, if_neg hab]⟩

theorem squeeze3_cons2_ex (c a b : Char) (l : List Char) :
    ∃ w, squeeze3 c (a :: b :: l) = a :: b :: w := by
  induction l generalizing a b with
  | nil => exact ⟨[], rfl⟩
  | cons d rest ih =>
    by_cases habd : a = c ∧ b = c ∧ d = c
    · obtain ⟨w, hw⟩ := ih b d
      refine ⟨w, ?_⟩
      have h1 : squeeze3 c (a :: b :: d :: rest) = squeeze3 c (b :: d :: rest) := by
        simp only [squeeze3, if_pos habd]
      rw [h1, hw, habd.1, habd.2.1, habd.2.2]
    · obtain ⟨w, hw⟩ := ih b d
      refine ⟨d :: w, ?_⟩
      simp only [squeeze3, if_neg habd, hw]

theorem tabsToSpace_cons_ex (a : Char) (l : List Char) :
    ∃ w, tabsToSpace (a :: l) = (if a = '\t' then ' ' else a) :: w := by
  induction l generalizing a with
  | nil => exact ⟨[], rfl⟩
  | cons b rest ih =>
    by_cases hab : a = '\t' ∧ b = '\t'
    · obtain ⟨w, hw⟩ := ih b
      refine ⟨w, ?_⟩
      have h1 : tabsToSpace (a :: b :: rest) = tabsToSpace (b :: rest) := by
        simp only [tabsToSpace, if_pos hab]
      rw [h1, hw, hab.1, hab.2]
    · exact ⟨tabsToSpace (b :: rest), by simp only [tabsToSpace, if_neg hab]⟩

theorem squeeze_hasPair (c : Char) (l : List Char) :
    hasPair c (squeeze c l) = false := by
  induction l with
  | nil => rfl
  | cons a rest ih =>
    cases rest with
    | nil => rfl
    | cons b rest2 =>
      by_cases hab : a = c ∧ b = c
      · simpa only [squeeze, if_pos hab] using ih
      · simp only [squeeze, if_neg hab]
        obtain ⟨w, hw⟩ := squeeze_cons_ex c b rest2
        rw [hw] at ih ⊢
        simp only [hasPair, Bool.or_eq_false_iff]
        refine ⟨?_, ih⟩
        by_cases hac : a = c
        · by_cases hbc : b = c
          · exact absurd ⟨hac, hbc⟩ hab
          · simp [hbc]
        · simp [hac]

theorem squeeze3_hasTriple (c : Char) (l : List Char) :
    hasTriple c (squeeze3 c l) = false := by
  induction l with
  | nil => rfl
  | cons a rest ih =>
    cases rest with
    | nil => rfl
    | cons b rest2 =>
      cases rest2 with
      | nil => rfl
      | cons d rest3 =>
        by_cases habd : a = c ∧ b = c ∧ d = c
        · simpa only [squeeze3, if_pos habd] using ih
        · simp only [squeeze3, if_neg habd]
          obtain ⟨w, hw⟩ := squeeze3_cons2_ex c b d rest3
          rw [hw] at ih ⊢
          simp only [hasTriple, Bool.or_eq_false_iff]
          refine ⟨?_, ih⟩
          by_cases hac : a = c
          · by_cases hbc : b = c
            · by_cases hdc : d = c
              · exact absurd ⟨hac, hbc, hdc⟩ habd
              · simp [hdc]
            · simp [hbc]
          · simp [hac]

theorem tabsToSpace_no_tab (l : List Char) : '\t' ∉ tabsToSpace l := by
  induction l with
  | nil => simp [tabsToSpace]
  | cons a rest ih =>
    cases rest with
    | nil =>
      simp only [tabsToSpace, List.mem_singleton]
      by_cases ha : a = '\t'
      · rw [if_pos ha]; decide
      · rw [if_neg ha]; exact Ne.symm ha
    | cons b rest2 =>
      by_cases hab : a = '\t' ∧ b = '\t'
      · simpa only [tabsToSpace, if_pos hab] using ih
      · simp only [tabsToSpace, if_neg hab, List.mem_cons]
        intro hc
        rcases hc with hc | hc
        · by_cases ha : a = '\t'
          · simp [ha] at hc
          · simp [ha] at hc; exact ha hc.symm
        · exact ih hc

theorem squeeze_mem {c x : Char} (l : List Char) (h : x ∈ squeeze c l) : x ∈ l := by
  induction l with
  | nil => simpa [squeeze] using h
  | cons a rest ih =>
    cases rest with
    | nil => simpa [squeeze] using h
    | cons b rest2 =>
      by_cases hab : a = c ∧ b = c
      · rw [squeeze, if_pos hab] at h
        exact List.mem_cons_of_mem _ (ih h)
      · rw [squeeze, if_neg hab] at h
        rcases List.mem_cons.mp h with h | h
        · simp [h]
        · exact List.mem_cons_of_mem _ (ih h)

theorem squeeze3_mem {c x : Char} (l : List Char) (h : x ∈ squeeze3 c l) : x ∈ l := by
  induction l with
  | nil => simpa [squeeze3] using h
  | cons a rest ih =>
    cases rest with
    | nil => simpa [squeeze3] using h
    | cons b rest2 =>
      cases rest2 with
      | nil => simpa [squeeze3] using h
      | cons d rest3 =>
        by_cases habd : a = c ∧ b = c ∧ d = c
        · rw [squeeze3, if_pos habd] at h
          exact List.mem_cons_of_mem _ (ih h)
        · rw [squeeze3, if_neg habd] at h
          rcases List.mem_cons.mp h with h | h
          · simp [h]
          · exact List.mem_cons_of_mem _ (ih h)

theorem tabsToSpace_mem {x : Char} (l : List Char) (h : x ∈ tabsToSpace l) :
    x ∈ l ∨ x = ' ' := by
  induction l with
  | nil => simp [tabsToSpace] at h
  | cons a rest ih =>
    cases rest with
    | nil =>
      simp only [tabsToSpace, List.mem_singleton] at h
      by_cases ha : a = '\t'
      · right; simpa [ha] using h
      · left; simp [ha] at h; simp [h]
    | cons b rest2 =>
      by_cases hab : a = '\t' ∧ b = '\t'
      · rw [tabsToSpace, if_pos hab] at h
        rcases ih h with h | h
        · exact Or.inl (List.mem_cons_of_mem _ h)
        · exact Or.inr h
      · rw [tabsToSpace, if_neg hab] at h
        rcases List.mem_cons.mp h with h | h
        · by_cases ha : a = '\t'
          · right; simpa [ha] using h
          · left; simp [ha] at h; simp [h]
        · rcases ih h with h | h
          · exact Or.inl (List.mem_cons_of_mem _ h)
          · exact Or.inr h

theorem tabsToSpace_triple (l : List Char) (h : hasTriple '\n' l = false) :
    hasTriple '\n' (tabsToSpace l) = false := by
  induction l with
  | nil => rfl
  | cons a rest ih =>
    have hrest : hasTriple '\n' rest = false := hasTriple_cons_false h
    cases rest with
    | nil => rfl
    | cons b rest2 =>
      by_cases hab : a = '\t' ∧ b = '\t'
      · have h1 : tabsToSpace (a :: b :: rest2) = tabsToSpace (b :: rest2) := by
          simp only [tabsToSpace, if_pos hab]
        rw [h1]; exact ih hrest
      · have h1 : tabsToSpace (a :: b :: rest2) =
            (if a = '\t' then ' ' else a) :: tabsToSpace (b :: rest2) := by
          simp only [tabsToSpace, if_neg hab]
        rw [h1]
        obtain ⟨w, hw⟩ := tabsToSpace_cons_ex b rest2
        rw [hw]
        have ihw : hasTriple '\n' ((if b = '\t' then ' ' else b) :: w) = false := by
          rw [← hw]; exact ih hrest
        cases w with
        | nil => rfl
        | cons x w2 =>
          simp only [hasTriple, Bool.or_eq_false_iff]
          refine ⟨?_, ihw⟩
          by_cases ha : (if a = '\t' then ' ' else a) = '\n'
          case neg => simp [ha]
          by_cases hb : (if b = '\t' then ' ' else b) = '\n'
          case neg => simp [hb]
          have ha' : a = '\n' := by
            by_cases hat : a = '\t'
            · rw [if_pos hat] at ha; exact absurd ha (by decide)
            · rwa [if_neg hat] at ha
          have hb' : b = '\n' := by
            by_cases hbt : b = '\t'
            · rw [if_pos hbt] at hb; exact absurd hb (by decide)
            · rwa [if_neg hbt] at hb
          cases rest2 with
          | nil => simp [tabsToSpace] at hw
          | cons r rest3 =>
            have hbr : ¬(b = '\t' ∧ r = '\t') := by
              intro hc
              have := hc.1; rw [hb'] at this; exact absurd this (by decide)
            have h2 : tabsToSpace (b :: r :: rest3) =
                (if b = '\t' then ' ' else b) :: tabsToSpace (r :: rest3) := by
              simp only [tabsToSpace, if_neg hbr]
            rw [h2] at hw
            injection hw with _ h3
            obtain ⟨w3, hw3⟩ := tabsToSpace_cons_ex r rest3
            rw [hw3] at h3
            injection h3 with hx _
            by_cases hxn : x = '\n'
            · have hr' : r = '\n' := by
                rw [hxn] at hx
                by_cases hrt : r = '\t'
                · rw [if_pos hrt] at hx; exact absurd hx (by decide)
                · rwa [if_neg hrt] at hx
              rw [ha', hb', hr'] at h
              simp [hasTriple] at h
            · simp [hxn]

theorem squeeze_triple (l : List Char) (h : hasTriple '\n' l = false) :
    hasTriple '\n' (squeeze ' ' l) = false := by
  induction l with
  | nil => rfl
  | cons a rest ih =>
    have hrest : hasTriple '\n' rest = false := hasTriple_cons_false h
    cases rest with
    | nil => rfl
    | cons b rest2 =>
      by_cases hab : a = ' ' ∧ b = ' '
      · have h1 : squeeze ' ' (a :: b :: rest2) = squeeze ' ' (b :: rest2) := by
          simp only [squeeze, if_pos hab]
        rw [h1]; exact ih hrest
      · have h1 : squeeze ' ' (a :: b :: rest2) = a :: squeeze ' ' (b :: rest2) := by
          simp only [squeeze, if_neg hab]
        rw [h1]
        obtain ⟨w, hw⟩ := squeeze_cons_ex ' ' b rest2
        rw [hw]
        have ihw : hasTriple '\n' (b :: w) = false := by
          rw [← hw]; exact ih hrest
        cases w with
        | nil => rfl
        | cons x w2 =>
          simp only [hasTriple, Bool.or_eq_false_iff]
          refine ⟨?_, ihw⟩
          by_cases han : a = '\n'
          case neg => simp [han]
          by_cases hbn : b = '\n'
          case neg => simp [hbn]
          cases rest2 with
          | nil => simp [squeeze] at hw
          | cons r rest3 =>
            have hbr : ¬(b = ' ' ∧ r = ' ') := by
              intro hc
              have := hc.1; rw [hbn] at this; exact absurd this (by decide)
            have h2 : squeeze ' ' (b :: r :: rest3) = b :: squeeze ' ' (r :: rest3) := by
              simp only [squeeze, if_neg hbr]
            rw [h2] at hw
            injection hw with _ h3
            obtain ⟨w3, hw3⟩ := squeeze_cons_ex ' ' r rest3
            rw [hw3] at h3
            injection h3 with hx _
            by_cases hxn : x = '\n'
            · have hr' : r = '\n' := by rw [hx, hxn]
              rw [han, hbn, hr'] at h
              simp [hasTriple] at h
            · simp [hxn]

theorem mem_of_mem_dropWhile {x : Char} {p : Char → Bool} {l : List Char}
    (h : x ∈ List.dropWhile p l) : x ∈ l := by
  have hd := List.takeWhile_append_dropWhile p l
  rw [← hd]
  exact List.mem_append_right _ h

theorem jsTrim_mem {x : Char} (l : List Char) (h : x ∈ jsTrim l) : x ∈ l := by
  unfold jsTrim at h
  have h1 := mem_of_mem_dropWhile h
  rw [List.mem_reverse] at h1
  have h2 := mem_of_mem_dropWhile h1
  rwa [List.mem_reverse] at h2

theorem jsTrim_decomp (l : List Char) : ∃ t1 t2, l = t1 ++ jsTrim l ++ t2 := by
  have h1 : l.reverse.takeWhile isJsWs ++ l.reverse.dropWhile isJsWs = l.reverse :=
    List.takeWhile_append_dropWhile isJsWs l.reverse
  set m := (l.reverse.dropWhile isJsWs).reverse with hm
  have h2 : m.takeWhile isJsWs ++ m.dropWhile isJsWs = m :=
    List.takeWhile_append_dropWhile isJsWs m
  refine ⟨m.takeWhile isJsWs, (l.reverse.takeWhile isJsWs).reverse, ?_⟩
  have h3 : l = m ++ (l.reverse.takeWhile isJsWs).reverse := by
    have h4 := congrArg List.reverse h1
    rw [List.reverse_append, List.reverse_reverse] at h4
    exact h4.symm
  calc l = m ++ (l.reverse.takeWhile isJsWs).reverse := h3
    _ = (m.takeWhile isJsWs ++ m.dropWhile isJsWs) ++
          (l.reverse.takeWhile isJsWs).reverse := by rw [h2]
    _ = m.takeWhile isJsWs ++ jsTrim l ++ (l.reverse.takeWhile isJsWs).reverse := by
          rw [List.append_assoc, ← List.append_assoc]
          rfl

theorem headOkB_dropWhile (l : List Char) :
    headOkB (List.dropWhile isJsWs l) = true := by
  induction l with
  | nil => rfl
  | cons a rest ih =>
    rw [List.dropWhile_cons]
    by_cases ha : isJsWs a = true
    · simp only [ha, if_true]; exact ih
    · simp only [ha, if_false]
      simp only [headOkB]
      rw [Bool.not_eq_true] at ha
      simp [ha]

theorem dropWhile_of_headOkB {l : List Char} (h : headOkB l = true) :
    List.dropWhile isJsWs l = l := by
  cases l with
  | nil => rfl
  | cons a rest =>
    simp only [headOkB, Bool.not_eq_true'] at h
    rw [List.dropWhile_cons]
    simp [h]

theorem jsTrim_id {l : List Char} (h : trimmedB l = true) : jsTrim l = l := by
  unfold trimmedB at h
  rw [Bool.and_eq_true] at h
  unfold jsTrim
  rw [dropWhile_of_headOkB h.2, List.reverse_reverse, dropWhile_of_headOkB h.1]

theorem jsTrim_trimmed (l : List Char) : trimmedB (jsTrim l) = true := by
  unfold trimmedB
  rw [Bool.and_eq_true]
  refine ⟨headOkB_dropWhile _, ?_⟩
  set m := (l.reverse.dropWhile isJsWs).reverse with hm
  have h2 : m.takeWhile isJsWs ++ m.dropWhile isJsWs = m :=
    List.takeWhile_append_dropWhile isJsWs m
  have h4 : headOkB m.reverse = true := by
    rw [hm, List.reverse_reverse]
    exact headOkB_dropWhile _
  have h5 : (jsTrim l).reverse ++ (m.takeWhile isJsWs).reverse = m.reverse := by
    have h6 := congrArg List.reverse h2
    rw [List.reverse_append] at h6
    exact h6
  cases hc : (jsTrim l).reverse with
  | nil => rfl
  | cons x r2 =>
    rw [hc, List.cons_append] at h5
    rw [← h5] at h4
    simpa [headOkB] using h4

theorem np_no_cr (l : List Char) : '\r' ∉ normalizePipeline l := by
  intro hmem
  unfold normalizePipeline at hmem
  have h1 := jsTrim_mem _ hmem
  have h2 := squeeze_mem _ h1
  rcases tabsToSpace_mem _ h2 with h3 | h3
  · have h4 := squeeze3_mem _ h3
    unfold crToNl at h4
    rcases List.mem_map.mp h4 with ⟨y, _, hy⟩
    by_cases hyr : y = '\r'
    · rw [if_pos hyr] at hy; exact absurd hy (by decide)
    · rw [if_neg hyr] at hy; exact hyr hy
  · exact absurd h3 (by decide)

theorem np_no_tab (l : List Char) : '\t' ∉ normalizePipeline l := by
  intro hmem
  unfold normalizePipeline at hmem
  have h1 := jsTrim_mem _ hmem
  have h2 := squeeze_mem _ h1
  exact tabsToSpace_no_tab _ h2

theorem np_no_triple (l : List Char) :
    hasTriple '\n' (normalizePipeline l) = false := by
  unfold normalizePipeline
  have h3 : hasTriple '\n' (squeeze3 '\n' (crToNl (crlfToLf l))) = false :=
    squeeze3_hasTriple _ _
  have h4 := tabsToSpace_triple _ h3
  have h5 := squeeze_triple _ h4
  obtain ⟨t1, t2, hdec⟩ :=
    jsTrim_decomp (squeeze ' ' (tabsToSpace (squeeze3 '\n' (crToNl (crlfToLf l)))))
  rw [hdec] at h5
  exact hasTriple_of_append_left (hasTriple_of_append_right h5)

theorem np_no_pair (l : List Char) :
    hasPair ' ' (normalizePipeline l) = false := by
  unfold normalizePipeline
  have h5 : hasPair ' ' (squeeze ' ' (tabsToSpace (squeeze3 '\n' (crToNl (crlfToLf l))))) = false :=
    squeeze_hasPair _ _
  obtain ⟨t1, t2, hdec⟩ :=
    jsTrim_decomp (squeeze ' ' (tabsToSpace (squeeze3 '\n' (crToNl (crlfToLf l)))))
  rw [hdec] at h5
  exact hasPair_of_append_left (hasPair_of_append_right h5)

theorem np_trimmed (l : List Char) : trimmedB (normalizePipeline l) = true :=
  jsTrim_trimmed _

theorem np_idem (l : List Char) :
    normalizePipeline (normalizePipeline l) = normalizePipeline l := by
  have h1 := np_no_cr l
  have h2 := np_no_tab l
  have h3 := np_no_triple l
  have h4 := np_no_pair l
  have h5 := np_trimmed l
  show jsTrim (squeeze ' ' (tabsToSpace (squeeze3 '\n' (crToNl (crlfToLf (normalizePipeline l)))))) =
      normalizePipeline l
  rw [crlfToLf_id _ h1, crToNl_id _ h1, squeeze3_id _ h3, tabsToSpace_id _ h2,
      squeeze_id _ h4, jsTrim_id h5]

theorem cleanText_data_or (s : String) :
    (cleanText s).data = [] ∨ (cleanText s).data = normalizePipeline s.data := by
  unfold cleanText
  by_cases hs : s = ""
  · rw [if_pos hs]; left; rfl
  · rw [if_neg hs]; right; rfl

theorem cleanText_no_cr (s : String) : '\r' ∉ (cleanText s).data := by
  rcases cleanText_data_or s with h | h <;> rw [h]
  · simp
  · exact np_no_cr _

theorem cleanText_no_tab (s : String) : '\t' ∉ (cleanText s).data := by
  rcases cleanText_data_or s with h | h <;> rw [h]
  · simp
  · exact np_no_tab _

theorem cleanText_no_triple (s : String) :
    hasTriple '\n' (cleanText s).data = false := by
  rcases cleanText_data_or s with h | h <;> rw [h]
  · rfl
  · exact np_no_triple _

theorem cleanText_no_pair (s : String) :
    hasPair ' ' (cleanText s).data = false := by
  rcases cleanText_data_or s with h | h <;> rw [h]
  · rfl
  · exact np_no_pair _

theorem cleanText_trimmed (s : String) : trimmedB (cleanText s).data = true := by
  rcases cleanText_data_or s with h | h <;> rw [h]
  · rfl
  · exact np_trimmed _

/-- C7: The TextNormalizer is idempotent: for every input string, applying
`cleanText` to its own output returns the identical string. -/
theorem cleanText_idempotent (s : String) : cleanText (cleanText s) = cleanText s := by
  by_cases hs : s = ""
  · rw [hs]; rfl
  · unfold cleanText
    rw [if_neg hs]
    by_cases h2 : String.mk (normalizePipeline s.data) = ""
    · rw [if_pos h2]; exact h2.symm
    · rw [if_neg h2]
      show String.mk (normalizePipeline (normalizePipeline s.data)) = _
      rw [np_idem]

/-- C8: For every input, the TextNormalizer's output contains no carriage
return (line endings unified to line feeds), no run of three or more
consecutive line feeds (three-or-more newlines, i.e. two-or-more blank lines,
collapse to exactly one blank line, shorter runs are left as written - shown
also on concrete inputs), no tab and no run of two or more spaces (horizontal
whitespace collapsed to single spaces), and has no leading or trailing
whitespace. -/
theorem cleanText_normal_form (s : String) :
    '\r' ∉ (cleanText s).data ∧
    hasTriple '\n' (cleanText s).data = false ∧
    '\t' ∉ (cleanText s).data ∧
    hasPair ' ' (cleanText s).data = false ∧
    trimmedB (cleanText s).data = true ∧
    cleanText "a\r\nb\rc" = "a\nb\nc" ∧
    cleanText "a\n\n\n\n\nb" = "a\n\nb" ∧
    cleanText "a\n\nb" = "a\n\nb" ∧
    cleanText "a\t\tb  c" = "a b c" ∧
    cleanText " \t a b \n" = "a b" :=
  ⟨cleanText_no_cr s, cleanText_no_triple s, cleanText_no_tab s,
   cleanText_no_pair s, cleanText_trimmed s, by decide, by decide, by decide,
   by decide, by decide⟩

theorem excelSheetRows_filter_go (rows : List (List String)) (acc : String) :
    List.foldl
      (fun acc2 row =>
        if 0 < row.length then acc2 ++ String.intercalate "\t" row ++ "\n" else acc2)
      acc (rows.filter (fun r => decide (0 < r.length))) =
    List.foldl
      (fun acc2 row =>
        if 0 < row.length then acc2 ++ String.intercalate "\t" row ++ "\n" else acc2)
      acc rows := by
  induction rows generalizing acc with
  | nil => rfl
  | cons r rest ih =>
    by_cases hr : 0 < r.length
    · rw [show List.filter (fun r => decide (0 < r.length)) (r :: rest) =
          r :: List.filter (fun r => decide (0 < r.length)) rest by simp [List.filter_cons, hr]]
      rw [List.foldl_cons, List.foldl_cons]
      exact ih _
    · rw [show List.filter (fun r => decide (0 < r.length)) (r :: rest) =
          List.filter (fun r => decide (0 < r.length)) rest by simp [List.filter_cons, hr]]
      rw [List.foldl_cons]
      simp only [if_neg hr]
      exact ih _

theorem excelSheetRows_filter (rows : List (List String)) :
    excelSheetRows (rows.filter (fun r => decide (0 < r.length))) = excelSheetRows rows :=
  excelSheetRows_filter_go rows ""

theorem excelRaw_filter (sheets : List (String × List (List String))) :
    excelRaw (sheets.map (fun p => (p.1, p.2.filter (fun r => decide (0 < r.length))))) =
    excelRaw sheets := by
  unfold excelRaw
  generalize (("" : String)) = acc
  induction sheets generalizing acc with
  | nil => rfl
  | cons p rest ih =>
    simp only [List.map_cons, List.foldl_cons]
    rw [excelSheetRows_filter p.2]
    exact ih _

theorem processExcel_skip_empty (sheets : List (String × List (List String))) :
    processExcel (sheets.map (fun p => (p.1, p.2.filter (fun r => decide (0 < r.length))))) =
    processExcel sheets := by
  unfold processExcel
  rw [excelRaw_filter]

/-- C9 counterexample: a workbook with one sheet `S` holding the single row
`["a", "b"]`.  The text returned by `processExcel` is `Sheet: S\na b` - it
contains no tab character at all (the `cleanText` normalization collapses the
tab joins to single spaces), while the claim's description of the returned
text as tab-joined would require a tab between the two cells. -/
theorem processExcel_tab_cex :
    processExcel [("S", [["a", "b"]])] = "Sheet: S\na b" ∧
    '\t' ∉ (processExcel [("S", [["a", "b"]])]).data ∧
    '\t' ∈ "a\tb".data := by
  refine ⟨by decide, by decide, by decide⟩

/-- C9 amended: the Spreadsheet strategy builds, per sheet, `Sheet: name`
followed by its rows joined with tab characters and newline-terminated,
skipping empty rows, with one blank line after each sheet; the returned text
is that construction passed through the normalizer, which collapses every
tab run to a single space (so rows appear space-joined) and trims the end.
Shown: skipping empty rows does not change the result, the returned text
never contains a tab, and the concrete shape on a two-sheet workbook both
before and after normalization. -/
theorem processExcel_amended :
    (∀ sheets : List (String × List (List String)),
        processExcel (sheets.map (fun p => (p.1, p.2.filter (fun r => decide (0 < r.length))))) =
          processExcel sheets) ∧
    (∀ sheets : List (String × List (List String)), '\t' ∉ (processExcel sheets).data) ∧
    excelRaw [("A", [["a", "b"], []]), ("B", [["c"]])] =
      "Sheet: A\na\tb\n\nSheet: B\nc\n\n" ∧
    processExcel [("A", [["a", "b"], []]), ("B", [["c"]])] =
      "Sheet: A\na b\n\nSheet: B\nc" :=
  ⟨processExcel_skip_empty, fun _ => cleanText_no_tab _, by decide, by decide⟩

/-! ## Lemmas about the retry loop -/

theorem mrr_ok {oracle : Nat → Except String (List ScheduleItem)} {attempt : Nat}
    {items : List ScheduleItem} (h : oracle attempt = .ok items) :
    makeRequestWithRetry oracle attempt =
      { attempts := 1, delays := [], result := .ok items } := by
  unfold makeRequestWithRetry
  rw [h]

theorem mrr_err_lt {oracle : Nat → Except String (List ScheduleItem)} {attempt : Nat}
    {msg : String} (h : oracle attempt = .error msg) (hlt : attempt < maxRetries) :
    makeRequestWithRetry oracle attempt =
      { attempts := (makeRequestWithRetry oracle (attempt + 1)).attempts + 1
      , delays := retryDelay * attempt :: (makeRequestWithRetry oracle (attempt + 1)).delays
      , result := (makeRequestWithRetry oracle (attempt + 1)).result } := by
  conv_lhs => rw [makeRequestWithRetry]
  rw [h]
  simp only [dif_pos hlt]

theorem mrr_err_last {oracle : Nat → Except String (List ScheduleItem)} {attempt : Nat}
    {msg : String} (h : oracle attempt = .error msg) (hge : ¬attempt < maxRetries) :
    makeRequestWithRetry oracle attempt =
      { attempts := 1, delays := []
      , result := .error ("OpenAI request failed after " ++ toString maxRetries ++
                          " attempts: " ++ msg) } := by
  conv_lhs => rw [makeRequestWithRetry]
  rw [h]
  simp only [dif_neg hge]

/-! ## C3: date validation -/

/-- C3: every value accepted by `validateDate` is returned as the identical
string, in `YYYY-MM-DD` form, that round-trips through calendar-date parsing
to itself; every other value - null, undefined, non-strings, strings not
matching the format, and calendar-invalid dates such as `2024-02-30` - is
coerced to null; and a bad `due_date` never fails the item (or hence the
response): the item is built with `due_date := validateDate dv` for an
arbitrary `dv`. -/
theorem validateDate_correct :
    (∀ v : JValue, validateDate v = none ∨
      ∃ s, v = JValue.str s ∧ validateDate v = some s ∧ isYMD s = true ∧
        ∃ y m d, jsDateParse s = some (y, m, d) ∧ toISODate y m d = s) ∧
    validateDate (JValue.str "2024-02-30") = none ∧
    validateDate (JValue.str "2024-02-29") = some "2024-02-29" ∧
    validateDate (JValue.str "2023-02-29") = none ∧
    validateDate JValue.null = none ∧
    validateDate (JValue.num 20240229) = none ∧
    (∀ dv : JValue,
      validateItem 0 (JValue.obj [("assignment", JValue.str "HW"),
        ("due_date", dv), ("source", JValue.str "f")]) =
      Except.ok { assignment := "HW", due_date := validateDate dv,
                  location := none, source := "f" }) := by
  refine ⟨?_, by decide, by decide, by decide, rfl, rfl, ?_⟩
  · intro v
    cases v with
    | str s =>
      by_cases hy : isYMD s = true
      · cases hp : jsDateParse s with
        | none => left; simp [validateDate, hy, hp]
        | some t =>
          obtain ⟨y, m, d⟩ := t
          by_cases hr : toISODate y m d = s
          · right
            exact ⟨s, rfl, by simp [validateDate, hy, hp, hr], hy, y, m, d, hp, hr⟩
          · left; simp [validateDate, hy, hp, hr]
      · left; simp [validateDate, hy]
    | null => left; rfl
    | undef => left; rfl
    | bool b => left; rfl
    | num n => left; rfl
    | arr a => left; rfl
    | obj f => left; rfl
  · intro dv
    rfl

/-! ## C4: fail-fast response validation -/

theorem validateString_error_of_bad (v : JValue) (n : String)
    (h : nonEmptyStrB v = false) : ∃ e, validateString v n = .error e := by
  cases v with
  | str s =>
    simp only [nonEmptyStrB, Bool.not_eq_false'] at h
    have hlen : (jsTrimStr s).length = 0 := by
      rw [eq_of_beq h]; rfl
    exact ⟨n ++ " must be a non-empty string", by simp [validateString, hlen]⟩
  | null => exact ⟨_, rfl⟩
  | undef => exact ⟨_, rfl⟩
  | bool b => exact ⟨_, rfl⟩
  | num k => exact ⟨_, rfl⟩
  | arr a => exact ⟨_, rfl⟩
  | obj f => exact ⟨_, rfl⟩

theorem validateItem_error_nonobj (i : Nat) (v : JValue)
    (h : ∀ fs, v ≠ JValue.obj fs) : ∃ e, validateItem i v = .error e := by
  cases v with
  | obj fs => exact absurd rfl (h fs)
  | arr a => exact ⟨"assignment must be a non-empty string", rfl⟩
  | null => exact ⟨_, rfl⟩
  | undef => exact ⟨_, rfl⟩
  | bool b => exact ⟨_, rfl⟩
  | num k => exact ⟨_, rfl⟩
  | str s => exact ⟨_, rfl⟩

theorem validateItem_error_badfields (i : Nat) (fs : List (String × JValue))
    (h : nonEmptyStrB (lookupField fs "assignment") = false ∨
         nonEmptyStrB (lookupField fs "source") = false) :
    ∃ e, validateItem i (JValue.obj fs) = .error e := by
  rcases h with h | h
  · obtain ⟨e, he⟩ := validateString_error_of_bad _ "assignment" h
    exact ⟨e, by simp [validateItem, validateFields, he]⟩
  · cases ha : validateString (lookupField fs "assignment") "assignment" with
    | error e => exact ⟨e, by simp [validateItem, validateFields, ha]⟩
    | ok a =>
      obtain ⟨e, he⟩ := validateString_error_of_bad _ "source" h
      exact ⟨e, by simp [validateItem, validateFields, ha, he]⟩

theorem validateItems_error_of_mem (xs : List JValue) (v : JValue) (hv : v ∈ xs)
    (hbad : ∀ i, ∃ e, validateItem i v = .error e) :
    ∀ i, ∃ e, validateItems i xs = .error e := by
  induction xs with
  | nil => cases hv
  | cons x rest ih =>
    intro i
    rcases List.mem_cons.mp hv with h | h
    · subst h
      obtain ⟨e, he⟩ := hbad i
      exact ⟨e, by simp [validateItems, he]⟩
    · cases hx : validateItem i x with
      | error e => exact ⟨e, by simp [validateItems, hx]⟩
      | ok item =>
        obtain ⟨e, he⟩ := ih h (i + 1)
        exact ⟨e, by simp [validateItems, hx, he]⟩

theorem pavr_error_of_inner {parsed : JValue} {e : String}
    (h : parseAndValidateInner parsed = .error e) :
    exIsOk (parseAndValidateResponse parsed) = false := by
  simp [parseAndValidateResponse, h, exIsOk]

/-- C4: response validation is fail-fast at the response level: a non-array
parsed value, any non-object element, and any element whose `assignment`
(description) or `source` is not a non-empty string after trimming each make
the whole response a validation failure, which (final conjuncts) consumes
exactly one retry attempt when the next attempt succeeds; a parsed empty
array is accepted as zero items. -/
theorem response_validation_fail_fast :
    (∀ parsed : JValue, (∀ xs, parsed ≠ JValue.arr xs) →
        exIsOk (parseAndValidateResponse parsed) = false) ∧
    (∀ (xs : List JValue) (v : JValue), v ∈ xs → (∀ fs, v ≠ JValue.obj fs) →
        exIsOk (parseAndValidateResponse (JValue.arr xs)) = false) ∧
    (∀ (xs : List JValue) (fs : List (String × JValue)), JValue.obj fs ∈ xs →
        (nonEmptyStrB (lookupField fs "assignment") = false ∨
         nonEmptyStrB (lookupField fs "source") = false) →
        exIsOk (parseAndValidateResponse (JValue.arr xs)) = false) ∧
    parseAndValidateResponse (JValue.arr []) = Except.ok [] ∧
    (makeRequestWithRetry
        (fun n => if n = 1 then Except.error "Invalid JSON response from OpenAI: Response is not an array"
                  else Except.ok []) 1) =
      { attempts := 2, delays := [1000], result := Except.ok [] } := by
  refine ⟨?_, ?_, ?_, rfl, ?_⟩
  · intro parsed hna
    have : ∃ e, parseAndValidateInner parsed = .error e := by
      cases parsed with
      | arr xs => exact absurd rfl (hna xs)
      | null => exact ⟨_, rfl⟩
      | undef => exact ⟨_, rfl⟩
      | bool b => exact ⟨_, rfl⟩
      | num k => exact ⟨_, rfl⟩
      | str s => exact ⟨_, rfl⟩
      | obj f => exact ⟨_, rfl⟩
    obtain ⟨e, he⟩ := this
    exact pavr_error_of_inner he
  · intro xs v hv hno
    obtain ⟨e, he⟩ :=
      validateItems_error_of_mem xs v hv (fun i => validateItem_error_nonobj i v hno) 0
    exact pavr_error_of_inner (by simpa [parseAndValidateInner] using he)
  · intro xs fs hv hbad
    obtain ⟨e, he⟩ :=
      validateItems_error_of_mem xs (JValue.obj fs) hv
        (fun i => validateItem_error_badfields i fs hbad) 0
    exact pavr_error_of_inner (by simpa [parseAndValidateInner] using he)
  · have h1 : (fun n => if n = 1 then Except.error (α := List ScheduleItem) "Invalid JSON response from OpenAI: Response is not an array"
                  else Except.ok []) 1 = Except.error "Invalid JSON response from OpenAI: Response is not an array" := rfl
    have h2 : (fun n => if n = 1 then Except.error (α := List ScheduleItem) "Invalid JSON response from OpenAI: Response is not an array"
                  else Except.ok []) 2 = Except.ok [] := rfl
    rw [mrr_err_lt h1 (by decide), mrr_ok h2]
    rfl

/-- Witness for C4: the hypotheses of the three fail-fast parts are
discharged at the concrete inputs `"no json"` (non-array), `[3]` (non-object
element) and `[{assignment: "  ", source: "f"}]` (whitespace-only
description). -/
theorem response_validation_fail_fast_witness :
    exIsOk (parseAndValidateResponse (JValue.str "no json")) = false ∧
    exIsOk (parseAndValidateResponse (JValue.arr [JValue.num 3])) = false ∧
    exIsOk (parseAndValidateResponse (JValue.arr
      [JValue.obj [("assignment", JValue.str "  "), ("source", JValue.str "f")]])) = false :=
  ⟨response_validation_fail_fast.1 (JValue.str "no json")
      (fun _ h => JValue.noConfusion h),
   response_validation_fail_fast.2.1 [JValue.num 3] (JValue.num 3)
      (List.mem_singleton.mpr rfl) (fun _ h => JValue.noConfusion h),
   response_validation_fail_fast.2.2.1 _
      [("assignment", JValue.str "  "), ("source", JValue.str "f")]
      (List.mem_singleton.mpr rfl) (Or.inl (by decide))⟩

/-! ## C2: retry policy -/

/-- C2: for every prompt (modelled by the per-attempt outcome oracle) the
extractor makes between 1 and 3 remote attempts; the waits performed are
exactly `attemptNumber x retryDelay` after each failed attempt other than
the last (linear backoff); when all three attempts fail the call makes
exactly 3 attempts and surfaces the single aggregated error naming the final
attempt's cause; a success comes from the last attempt made (no further
attempts after it). -/
theorem retry_policy_correct (oracle : Nat → Except String (List ScheduleItem)) :
    (1 ≤ (makeRequestWithRetry oracle 1).attempts ∧
     (makeRequestWithRetry oracle 1).attempts ≤ 3) ∧
    (makeRequestWithRetry oracle 1).delays =
      (List.range ((makeRequestWithRetry oracle 1).attempts - 1)).map
        (fun i => retryDelay * (i + 1)) ∧
    (∀ m1 m2 m3, oracle 1 = .error m1 → oracle 2 = .error m2 → oracle 3 = .error m3 →
      (makeRequestWithRetry oracle 1).attempts = 3 ∧
      (makeRequestWithRetry oracle 1).result =
        .error ("OpenAI request failed after 3 attempts: " ++ m3)) ∧
    (∀ items : List ScheduleItem, (makeRequestWithRetry oracle 1).result = .ok items →
      oracle ((makeRequestWithRetry oracle 1).attempts) = .ok items) := by
  rcases ho1 : oracle 1 with m1 | items1
  · rcases ho2 : oracle 2 with m2 | items2
    · rcases ho3 : oracle 3 with m3 | items3
      · have e3 := mrr_err_last ho3 (by decide)
        have e2 := mrr_err_lt ho2 (by decide)
        have e1 := mrr_err_lt ho1 (by decide)
        rw [e1, e2, e3]
        refine ⟨by norm_num, rfl, ?_, ?_⟩
        · intro n1 n2 n3 h1 h2 h3
          injection h3 with h3
          subst h3
          exact ⟨rfl, rfl⟩
        · intro items h
          exact absurd h (by simp)
      · have e3 := mrr_ok ho3
        have e2 := mrr_err_lt ho2 (by decide)
        have e1 := mrr_err_lt ho1 (by decide)
        rw [e1, e2, e3]
        refine ⟨by norm_num, rfl, ?_, ?_⟩
        · intro n1 n2 n3 h1 h2 h3
          exact absurd h3 (by simp)
        · intro items h
          have h' : items3 = items := by injection h
          show oracle 3 = Except.ok items
          rw [ho3, h']
    · have e2 := mrr_ok ho2
      have e1 := mrr_err_lt ho1 (by decide)
      rw [e1, e2]
      refine ⟨by norm_num, rfl, ?_, ?_⟩
      · intro n1 n2 n3 h1 h2 h3
        exact absurd h2 (by simp)
      · intro items h
        have h' : items2 = items := by injection h
        show oracle 2 = Except.ok items
        rw [ho2, h']
  · have e1 := mrr_ok ho1
    rw [e1]
    refine ⟨by norm_num, rfl, ?_, ?_⟩
    · intro n1 n2 n3 h1 h2 h3
      exact absurd h1 (by simp)
    · intro items h
      have h' : items1 = items := by injection h
      show oracle 1 = Except.ok items
      rw [ho1, h']

/-- Witness for C2: with `oracleAllFail` every attempt fails, so exactly 3
attempts are made and the aggregated error names the final cause; with
`oracleAllOk` the success comes from the attempt counted as last. -/
theorem retry_policy_correct_witness :
    ((makeRequestWithRetry oracleAllFail 1).attempts = 3 ∧
     (makeRequestWithRetry oracleAllFail 1).result =
       Except.error ("OpenAI request failed after 3 attempts: " ++ "boom")) ∧
    oracleAllOk ((makeRequestWithRetry oracleAllOk 1).attempts) = Except.ok [] :=
  ⟨(retry_policy_correct oracleAllFail).2.2.1 "boom" "boom" "boom" rfl rfl rfl,
   (retry_policy_correct oracleAllOk).2.2.2 []
     (by rw [mrr_ok (show oracleAllOk 1 = .ok [] from rfl)])⟩

/-! ## C5 and C10: FormatRouter -/

theorem isSupported_false_none {mime : String} (h : isSupported mime = false) :
    lookupSupported mime = none := by
  cases hl : lookupSupported mime with
  | none => rfl
  | some f => rw [isSupported, hl] at h; simp at h

theorem processFile_of_none {mime : String} (hl : lookupSupported mime = none) :
    processFile mime =
      (if mime ∈ objectProtoKeys then ProcessOutcome.errNoProcessor
       else ProcessOutcome.errUnsupported mime) := by
  simp [processFile, hl]

theorem processFile_not_run_of_none {mime : String}
    (hl : lookupSupported mime = none) (f : Family) :
    processFile mime ≠ ProcessOutcome.runStrategy f := by
  rw [processFile_of_none hl]
  by_cases hm : mime ∈ objectProtoKeys
  · rw [if_pos hm]; intro h; cases h
  · rw [if_neg hm]; intro h; cases h

theorem processFileAsync_of_none {env : Env}
    (hl : lookupSupported env.mimeType = none) :
    processFileAsync env = failTail env := by
  by_cases hm : env.mimeType ∈ objectProtoKeys
  · have h1 : processFile env.mimeType = ProcessOutcome.errNoProcessor := by
      rw [processFile_of_none hl, if_pos hm]
    simp [processFileAsync, h1]
  · have h1 : processFile env.mimeType = ProcessOutcome.errUnsupported env.mimeType := by
      rw [processFile_of_none hl, if_neg hm]
    simp [processFileAsync, h1]

/-- C5 counterexample: `toString` is not in the supported-type mapping
(`isSupported` is false), yet `processFile` does not fail with the
unsupported-type error for it: the inherited `Object.prototype.toString`
member makes the lookup truthy, the `switch` matches no case, and the
`default` arm throws the distinct no-processor-found error. -/
theorem router_error_cex :
    isSupported "toString" = false ∧
    processFile "toString" = ProcessOutcome.errNoProcessor ∧
    ProcessOutcome.errNoProcessor ≠ ProcessOutcome.errUnsupported "toString" :=
  ⟨by decide, by decide, by decide⟩

/-- C5 amended: every content type that is not an own key of the
supported-type map fails immediately - with the unsupported-type error
unless the string is an inherited `Object.prototype` property name, in which
case the no-processor-found error is thrown - and in either case no
extraction strategy is invoked and no remote call is made; every supported
content type resolves to exactly one strategy family. -/
theorem router_dispatch_amended :
    (∀ mime : String, isSupported mime = false →
      (∀ f, processFile mime ≠ ProcessOutcome.runStrategy f) ∧
      (mime ∉ objectProtoKeys → processFile mime = ProcessOutcome.errUnsupported mime) ∧
      (mime ∈ objectProtoKeys → processFile mime = ProcessOutcome.errNoProcessor)) ∧
    (∀ (mime : String) (f : Family), lookupSupported mime = some f →
      processFile mime = ProcessOutcome.runStrategy f) ∧
    (∀ (mime : String) (f g : Family), processFile mime = ProcessOutcome.runStrategy f →
      processFile mime = ProcessOutcome.runStrategy g → f = g) ∧
    (∀ env : Env, isSupported env.mimeType = false →
      (∀ f, Ev.strategy f ∉ processFileAsync env) ∧ Ev.callAI ∉ processFileAsync env) := by
  refine ⟨?_, ?_, ?_, ?_⟩
  · intro mime h
    have hl := isSupported_false_none h
    refine ⟨processFile_not_run_of_none hl, ?_, ?_⟩
    · intro hm; rw [processFile_of_none hl, if_neg hm]
    · intro hm; rw [processFile_of_none hl, if_pos hm]
  · intro mime f hf
    simp [processFile, hf]
  · intro mime f g hf hg
    rw [hf] at hg
    exact ProcessOutcome.runStrategy.inj hg
  · intro env h
    rw [processFileAsync_of_none (isSupported_false_none h)]
    unfold failTail
    exact ⟨fun f => by simp, by simp⟩

/-- Witness for C5: `application/zip` is unsupported and not a prototype
name, so the unsupported-type error is thrown and the `envZip` run invokes
no strategy and makes no remote call; `text/plain` resolves to the `text`
family. -/
theorem router_dispatch_amended_witness :
    processFile "application/zip" = ProcessOutcome.errUnsupported "application/zip" ∧
    Ev.strategy Family.excel ∉ processFileAsync envZip ∧
    Ev.callAI ∉ processFileAsync envZip ∧
    processFile "text/plain" = ProcessOutcome.runStrategy Family.text :=
  ⟨(router_dispatch_amended.1 "application/zip" (by decide)).2.1 (by decide),
   (router_dispatch_amended.2.2.2 envZip (by decide)).1 Family.excel,
   (router_dispatch_amended.2.2.2 envZip (by decide)).2,
   router_dispatch_amended.2.1 "text/plain" Family.text (by decide)⟩

/-- C10: for every content-type string rejected by `isSupported` - including
inherited `Object.prototype` property names such as `constructor` or
`toString`, whose plain-object lookup yields a truthy non-own value -
`processFile` throws an error (the unsupported-type or the
no-processor-found error) before invoking any extraction strategy, and no
pipeline run for such a type ever records a strategy invocation. -/
theorem processFile_proto_safety (mime : String) (h : isSupported mime = false) :
    (∀ f, processFile mime ≠ ProcessOutcome.runStrategy f) ∧
    (processFile mime = ProcessOutcome.errUnsupported mime ∨
     processFile mime = ProcessOutcome.errNoProcessor) ∧
    (∀ env : Env, env.mimeType = mime → ∀ f, Ev.strategy f ∉ processFileAsync env) := by
  have hl := isSupported_false_none h
  refine ⟨processFile_not_run_of_none hl, ?_, ?_⟩
  · by_cases hm : mime ∈ objectProtoKeys
    · right; rw [processFile_of_none hl, if_pos hm]
    · left; rw [processFile_of_none hl, if_neg hm]
  · intro env hme f
    rw [processFileAsync_of_none (by rw [hme]; exact hl)]
    unfold failTail
    simp

/-- Witness for C10 at the inherited prototype name `constructor`: it is not
supported, selects no strategy, and throws the no-processor-found error. -/
theorem processFile_proto_safety_witness :
    isSupported "constructor" = false ∧
    processFile "constructor" ≠ ProcessOutcome.runStrategy Family.excel ∧
    (processFile "constructor" = ProcessOutcome.errUnsupported "constructor" ∨
     processFile "constructor" = ProcessOutcome.errNoProcessor) :=
  ⟨by decide,
   (processFile_proto_safety "constructor" (by decide)).1 Family.excel,
   (processFile_proto_safety "constructor" (by decide)).2.1⟩

/-! ## C6: repository write failures -/

/-- C6 counterexample: in `envWriteTextFails` the write persisting the
extracted text fails, yet the run then performs one more status write - the
catch block durably marks the file `failed` - so the on-disk status does not
remain at the last durably written value (`processing`) and the claim's "no
additional status write after the failed write" is violated. -/
theorem storage_failure_cex :
    processFileAsync envWriteTextFails =
      [Ev.strategy Family.text, Ev.writeText false, Ev.writeStatus Status.failed true] ∧
    afterFirstFailedWrite (processFileAsync envWriteTextFails) =
      [Ev.writeStatus Status.failed true] ∧
    (afterFirstFailedWrite (processFileAsync envWriteTextFails)).countP isWriteAttempt = 1 ∧
    durableStatuses envWriteTextFails = [Status.processing, Status.failed] :=
  ⟨rfl, rfl, rfl, rfl⟩

/-- C6 amended: if a repository write fails during a run, no further
pipeline stage executes; the only event that can follow the first failed
write is the catch block's single attempt to write the `failed` status
(itself possibly failing, in which case the last durably written status
stands). -/
theorem storage_failure_amended (env : Env) :
    afterFirstFailedWrite (processFileAsync env) = [] ∨
    afterFirstFailedWrite (processFileAsync env) =
      [Ev.writeStatus Status.failed env.writeFailedOk] := by
  cases hp : processFile env.mimeType with
  | runStrategy f =>
    cases hs : env.strategyResult f with
    | none =>
      cases hf : env.writeFailedOk <;>
        simp [processFileAsync, hp, hs, failTail, afterFirstFailedWrite, isFailedWrite, hf]
    | some txt =>
      cases hw : env.writeTextOk with
      | false =>
        cases hf : env.writeFailedOk <;>
          simp [processFileAsync, hp, hs, hw, failTail, afterFirstFailedWrite,
            isFailedWrite, hf]
      | true =>
        cases hr : (makeRequestWithRetry env.aiOracle 1).result with
        | error e =>
          cases hf : env.writeFailedOk <;>
            simp [processFileAsync, hp, hs, hw, hr, failTail, afterFirstFailedWrite,
              isFailedWrite, hf]
        | ok items =>
          cases hap : env.appendOk with
          | false =>
            cases hf : env.writeFailedOk <;>
              simp [processFileAsync, hp, hs, hw, hr, hap, failTail,
                afterFirstFailedWrite, isFailedWrite, hf]
          | true =>
            cases hc : env.writeCompletedOk with
            | false =>
              cases hf : env.writeFailedOk <;>
                simp [processFileAsync, hp, hs, hw, hr, hap, hc, failTail,
                  afterFirstFailedWrite, isFailedWrite, hf]
            | true =>
              simp [processFileAsync, hp, hs, hw, hr, hap, hc, failTail,
                afterFirstFailedWrite, isFailedWrite]
  | errUnsupported m =>
    cases hf : env.writeFailedOk <;>
      simp [processFileAsync, hp, failTail, afterFirstFailedWrite, isFailedWrite, hf]
  | errNoProcessor =>
    cases hf : env.writeFailedOk <;>
      simp [processFileAsync, hp, failTail, afterFirstFailedWrite, isFailedWrite, hf]

/-! ## C1: the status state machine -/

/-- C1: along every pipeline run, the durably written statuses (starting
from the `processing` written at upload) form a chain in which every
transition leaves a non-terminal state (so `completed` and `failed` are
terminal and never change again), every transition into `failed` comes from
`processing` or `text_extracted`, and every other transition is
non-decreasing along `pending < processing < text_extracted < completed`. -/
theorem pipeline_status_monotone (env : Env) :
    List.Chain' (fun a b => okStepB a b = true) (durableStatuses env) := by
  unfold durableStatuses
  cases hp : processFile env.mimeType with
  | runStrategy f =>
    cases hs : env.strategyResult f with
    | none =>
      cases hf : env.writeFailedOk <;>
        (simp [processFileAsync, hp, hs, failTail, statusOfEv, hf] <;> decide)
    | some txt =>
      cases hw : env.writeTextOk with
      | false =>
        cases hf : env.writeFailedOk <;>
          (simp [processFileAsync, hp, hs, hw, failTail, statusOfEv, hf] <;> decide)
      | true =>
        cases hr : (makeRequestWithRetry env.aiOracle 1).result with
        | error e =>
          cases hf : env.writeFailedOk <;>
            (simp [processFileAsync, hp, hs, hw, hr, failTail, statusOfEv, hf] <;> decide)
        | ok items =>
          cases hap : env.appendOk with
          | false =>
            cases hf : env.writeFailedOk <;>
              (simp [processFileAsync, hp, hs, hw, hr, hap, failTail, statusOfEv, hf] <;> decide)
          | true =>
            cases hc : env.writeCompletedOk with
            | false =>
              cases hf : env.writeFailedOk <;>
                (simp [processFileAsync, hp, hs, hw, hr, hap, hc, failTail, statusOfEv, hf] <;>
                  decide)
            | true =>
              simp [processFileAsync, hp, hs, hw, hr, hap, hc, failTail, statusOfEv]
              decide
  | errUnsupported m =>
    cases hf : env.writeFailedOk <;>
      (simp [processFileAsync, hp, failTail, statusOfEv, hf] <;> decide)
  | errNoProcessor =>
    cases hf : env.writeFailedOk <;>
      (simp [processFileAsync, hp, failTail, statusOfEv, hf] <;> decide)
